import Mathlib

/-!
Shallow embedding of the two core transformations of the airbnb_analysis
repository: `set_data_types` (the dtype memory optimizer) and
`rename_columns` (the column label normalizer), with theorems settling the
frozen claims about them.

The Table model follows the repository's data model: a table is an ordered
list of named columns, each carrying a storage kind and its values, plus a
row count (pandas `df.shape[0]`). Machine integers are modelled as `Int`
with explicit two's-complement wrapping where pandas' `astype` can
overflow. Column labels are modelled at ASCII level, which covers every
label occurring in the repository's data; Python's `str.lower`, `str.title`
and `str.replace` are embedded with their ASCII semantics.
-/

/-- Fixed signed-integer storage widths available to pandas integer downcasting
(`int8`, `int16`, `int32`, `int64`). -/
inductive IntWidth
  | w8 | w16 | w32 | w64
  deriving DecidableEq, Repr

/-- Floating-point storage widths (`float16`, `float32`, `float64`). -/
inductive FloatWidth
  | f16 | f32 | f64
  deriving DecidableEq, Repr

/-- Bit size of a signed integer storage width. -/
def IntWidth.bits : IntWidth → Nat
  | .w8 => 8
  | .w16 => 16
  | .w32 => 32
  | .w64 => 64

/-- A text cell of an object column: `none` is the designated missing marker
(pandas `NaN` inside an object column). -/
abbrev ObjVal := Option String

/-- Storage of one column. `obj` is a pandas `object` (text) column, `cat` a
categorical column (dictionary of distinct values plus per-row codes, code
`-1` marking a missing row), `int`/`float` fixed-width numeric columns, and
`datetime` a parsed date column (present in the repository via
`parse_dates`), which the optimizer never touches. -/
inductive ColData
  | obj (vals : List ObjVal)
  | cat (categories : List String) (codes : List Int)
  | int (w : IntWidth) (vals : List Int)
  | float (w : FloatWidth) (vals : List Rat)
  | datetime (vals : List Int)
  deriving DecidableEq, Repr

/-- A named column. -/
structure Column where
  name : String
  data : ColData
  deriving DecidableEq, Repr

/-- An in-memory table: a row count (`df.shape[0]`) and an ordered list of
named columns. -/
structure Table where
  nrows : Nat
  cols : List Column
  deriving DecidableEq, Repr

/-- Number of stored values of a column. -/
def ColData.nvals : ColData → Nat
  | .obj vs => vs.length
  | .cat _ codes => codes.length
  | .int _ vs => vs.length
  | .float _ vs => vs.length
  | .datetime vs => vs.length

/-! ### Column label normalization (`rename_columns`)

The source renames every label by
`col.lower().title().replace("_", "").replace(" ", "").replace(".", "")`.
Python's `str.title` uppercases every cased character whose predecessor is
not cased and lowercases every other cased character; its notion of word is
a maximal run of letters, so digits and every other non-letter character
act as word boundaries. -/

/-- Python `str.title` on a list of characters: `prevCased` records whether
the preceding character was a letter. A letter after a non-letter (or at the
start) is uppercased; a letter after a letter is lowercased; non-letters
pass through. ASCII semantics (`Char.isAlpha` tests ASCII letters). -/
def titleAux : Bool → List Char → List Char
  | _, [] => []
  | prevCased, c :: cs =>
    if c.isAlpha then
      (if prevCased then c.toLower else c.toUpper) :: titleAux true cs
    else
      c :: titleAux false cs

/-- The label transform of `rename_columns`:
`col.lower().title().replace("_", "").replace(" ", "").replace(".", "")`.
`replace(x, "")` deletes every occurrence, modelled by a filter. -/
def renameLabel (s : String) : String :=
  String.mk ((((titleAux false (s.data.map Char.toLower)).filter
    (· != '_')).filter (· != ' ')).filter (· != '.'))

/-- `rename_columns`: returns a copy of the table in which every column
label is rewritten by `renameLabel`; row count, column order and column
data are untouched (the source assigns the new header list to a copy). -/
def rename_columns (t : Table) : Table :=
  { nrows := t.nrows
    cols := t.cols.map (fun c => { name := renameLabel c.name, data := c.data }) }

/-- Title-casing as the claim words it: capitalize the first character of
each word, where words are delimited by whitespace and punctuation only
(so a digit does not start a new word). Used to compare the claim's label
pipeline with the source's. -/
def specTitleAux : Bool → List Char → List Char
  | _, [] => []
  | atWordStart, c :: cs =>
    if c.isAlphanum then
      (if atWordStart then c.toUpper else c.toLower) :: specTitleAux false cs
    else
      c :: specTitleAux true cs

/-- The claim's label pipeline: lowercase, title-case with words delimited
by whitespace/punctuation, then strip underscores, spaces and periods. -/
def specNormalizeLabel (s : String) : String :=
  String.mk ((((specTitleAux true (s.data.map Char.toLower)).filter
    (· != '_')).filter (· != ' ')).filter (· != '.'))

/-- Whether a letter at this position is uppercased by Python `str.title`:
yes when the string starts here or the preceding character is not a letter. -/
def capitalizeHere : Option Char → Bool
  | none => true
  | some q => !q.isAlpha

/-- Pointwise characterization of Python `str.title`: each character is
paired with its predecessor; a letter is uppercased when it begins the
string or follows a non-letter, lowercased otherwise, and non-letters pass
through. -/
def titleByPredecessor (l : List Char) : List Char :=
  (l.zip ((none : Option Char) :: l.map some)).map (fun p =>
    if p.1.isAlpha then
      (if capitalizeHere p.2 then p.1.toUpper else p.1.toLower)
    else p.1)

/-- The amended label transform: lowercase, then uppercase each letter that
begins the string or follows a non-letter character (lowercasing all other
letters), then strip underscores, spaces and periods. -/
def amendedLabel (s : String) : String :=
  String.mk ((((titleByPredecessor (s.data.map Char.toLower)).filter
    (· != '_')).filter (· != ' ')).filter (· != '.'))

/-- Cased-ness of the optional predecessor character. -/
def prevFlag : Option Char → Bool
  | none => false
  | some q => q.isAlpha

/-! ### Integer downcasting (`pd.to_numeric(col, downcast='integer')`)

pandas walks the candidate dtypes `int8, int16, int32, int64` in ascending
order, skipping any candidate wider than the current dtype; for each
candidate it attempts the conversion (`maybe_downcast_numeric`): a
non-empty array is never upcast (same-kind guard), an empty array is astype
at once, and otherwise the astype is committed only when the converted
values compare exactly equal to the originals; the walk stops at the first
candidate whose conversion commits. -/

/-- Signed `w.bits`-bit representable range. -/
def inRange (w : IntWidth) (n : Int) : Prop :=
  -(2 ^ (w.bits - 1)) ≤ n ∧ n < 2 ^ (w.bits - 1)

instance (w : IntWidth) (n : Int) : Decidable (inRange w n) := by
  unfold inRange; infer_instance

/-- Two's-complement wrap of `n` into the signed `w.bits`-bit range, the
effect of a numpy `astype` to that width. -/
def intWrap (w : IntWidth) (n : Int) : Int :=
  (n + 2 ^ (w.bits - 1)) % 2 ^ w.bits - 2 ^ (w.bits - 1)

/-- pandas' exact-roundtrip check before committing a downcast: converting
every value to width `w` and back changes nothing. -/
def fitsExact (w : IntWidth) (vs : List Int) : Prop :=
  vs.map (intWrap w) = vs

instance (w : IntWidth) (vs : List Int) : Decidable (fitsExact w vs) := by
  unfold fitsExact; infer_instance

/-- The candidate walk of `pd.to_numeric(·, downcast='integer')`. State is
the current dtype width and values. For each candidate `tgt` no wider than
the current dtype: a non-empty array is returned unchanged when the
candidate would not shrink it (loop breaks when the dtype already equals
the candidate); an empty array is astype directly; otherwise the astype is
committed when it roundtrips exactly, and the loop breaks. -/
def tnLoop : List IntWidth → IntWidth × List Int → IntWidth × List Int
  | [], st => st
  | tgt :: rest, (w, vs) =>
    if tgt.bits ≤ w.bits then
      if w.bits ≤ tgt.bits ∧ vs ≠ [] then
        if w = tgt then (w, vs) else tnLoop rest (w, vs)
      else if vs = [] then
        (tgt, vs.map (intWrap tgt))
      else if fitsExact tgt vs then
        (tgt, vs.map (intWrap tgt))
      else tnLoop rest (w, vs)
    else tnLoop rest (w, vs)

/-- `pd.to_numeric(col, downcast='integer')` on a signed integer column of
width `w`: candidates `int8, int16, int32, int64` in ascending order. -/
def to_numeric_downcast_integer (w : IntWidth) (vals : List Int) :
    IntWidth × List Int :=
  tnLoop [.w8, .w16, .w32, .w64] (w, vals)

/-- The smallest signed width among 8, 16, 32, 64 bits whose range covers
every value of the list (the spec's "smallest kind covering [min, max]"). -/
def smallestFit (vals : List Int) : IntWidth :=
  if ∀ v ∈ vals, inRange .w8 v then .w8
  else if ∀ v ∈ vals, inRange .w16 v then .w16
  else if ∀ v ∈ vals, inRange .w32 v then .w32
  else .w64

/-! ### Category conversion (`col.astype('category')`)

pandas builds the categories as the sorted distinct non-missing values and
stores per-row codes, `-1` for a missing row. -/

/-- Insert a string into a (sorted) list, keeping order. -/
def insertSorted (s : String) : List String → List String
  | [] => [s]
  | t :: ts => if s < t then s :: t :: ts else t :: insertSorted s ts

/-- Insertion sort on strings (code-point order, as pandas sorts the
categories of a string column). -/
def sortStrings : List String → List String
  | [] => []
  | s :: ss => insertSorted s (sortStrings ss)

/-- Index of the first occurrence of `s` (the categorical code of value `s`
in the dictionary). -/
def idxOfStr (s : String) : List String → Nat
  | [] => 0
  | t :: ts => if t = s then 0 else idxOfStr s ts + 1

/-- `col.astype('category')`: categories are the sorted distinct
non-missing values; each row stores the code of its value, `-1` when
missing. -/
def astype_category (vals : List ObjVal) : ColData :=
  let cats := sortStrings (vals.filterMap id).dedup
  .cat cats (vals.map (fun v =>
    match v with
    | none => (-1 : Int)
    | some s => (idxOfStr s cats : Int)))

/-- Decode one categorical code back to its text value. -/
def decodeCat (cats : List String) (code : Int) : ObjVal :=
  if code < 0 then none else cats.get? code.toNat

/-- The logical value of a cell, independent of storage kind: text (with
missing marker), integer, float, or datetime. -/
inductive CellVal
  | text (v : ObjVal)
  | intv (n : Int)
  | floatv (q : Rat)
  | timev (n : Int)
  deriving DecidableEq, Repr

/-- The logical values of a column, in row order: categorical columns are
decoded through their dictionary, numeric columns read off directly. -/
def ColData.logicalValues : ColData → List CellVal
  | .obj vs => vs.map .text
  | .cat cats codes => codes.map (fun c => .text (decodeCat cats c))
  | .int _ vs => vs.map .intv
  | .float _ vs => vs.map .floatv
  | .datetime vs => vs.map .timev

/-! ### The optimizer (`set_data_types`) -/

/-- Columns matched by `df.select_dtypes(include=['object'])`. -/
def ColData.isObjectDtype : ColData → Bool
  | .obj _ => true
  | _ => false

/-- Columns matched by `df.select_dtypes(include=['int'])`. pandas expands
the string `'int'` to the platform types `{numpy int32, int64}` and matches
a column when its dtype is a subclass of one of them, so 8- and 16-bit
integer columns are not selected. -/
def ColData.selectedByIntFilter : ColData → Bool
  | .int .w32 _ => true
  | .int .w64 _ => true
  | _ => false

/-- `pandas.api.types.is_integer_dtype` on a column. -/
def ColData.isIntegerDtype : ColData → Bool
  | .int _ _ => true
  | _ => false

/-- `pandas.api.types.is_float_dtype` on a column. -/
def ColData.isFloatDtype : ColData → Bool
  | .float _ _ => true
  | _ => false

/-- The category threshold of `set_data_types`:
`df[col].nunique(dropna=False) < df.shape[0] / 2`, where `/` is Python real
division — stated as an exact rational comparison. -/
def nuniqueBelowHalf (k R : Nat) : Prop :=
  (k : ℚ) < (R : ℚ) / 2

instance (k R : Nat) : Decidable (nuniqueBelowHalf k R) :=
  decidable_of_iff (2 * k < R)
    (by unfold nuniqueBelowHalf
        rw [lt_div_iff₀ (by norm_num : (0:ℚ) < 2), mul_comm]
        norm_cast)

/-- The object-column pass of `set_data_types`: an object column is
converted to categorical when its number of distinct values, the missing
marker counted as one distinct value (`col.nunique(dropna=False)`), is less
than half the row count. Other columns are untouched. -/
def objectStep (R : Nat) (c : Column) : Column :=
  match c.data with
  | .obj vals =>
    if nuniqueBelowHalf vals.dedup.length R then
      { name := c.name, data := astype_category vals }
    else c
  | _ => c

/-- The integer-column pass of `set_data_types`: every column selected by
the `'int'` dtype filter is downcast with
`pd.to_numeric(col, downcast='integer')`. The source's
`elif is_float_dtype(temp)` arm (`downcast='float'`) is unreachable — the
filter only selects integer-kind columns — so float columns are never
converted anywhere in the function. -/
def intStep (c : Column) : Column :=
  if c.data.selectedByIntFilter then
    if c.data.isIntegerDtype then
      match c.data with
      | .int w vals =>
        { name := c.name
          data := .int (to_numeric_downcast_integer w vals).1
            (to_numeric_downcast_integer w vals).2 }
      | _ => c
    else if c.data.isFloatDtype then
      c
    else c
  else c

/-- `set_data_types`: works on a copy of the input table (modelled by
returning a new `Table` value). The dtype selections `object_columns`,
`int_columns`, `float_columns` are computed up front; the first loop
converts low-cardinality object columns to categorical, the second loop
downcasts the columns selected by the `'int'` filter; `float_columns` is
computed in the source but never iterated, so no third loop exists. -/
def set_data_types (t : Table) : Table :=
  { nrows := t.nrows
    cols := (t.cols.map (objectStep t.nrows)).map intStep }

/-! ### Concrete tables used to instantiate the claims -/

/-- A table with one `float64` column whose values are all exactly
representable at 32 (even 16) bits. -/
def floatTable : Table :=
  { nrows := 3, cols := [{ name := "price", data := .float .f64 [1, 2, 4] }] }

/-- Five rows, one object column with two distinct values counting the
missing marker (`"a"` and `NaN`). -/
def objTable : Table :=
  { nrows := 5
    cols := [{ name := "city"
               data := .obj [some "a", some "a", none, some "a", none] }] }

/-- A zero-row table with a single `int64` column. -/
def emptyIntTable : Table :=
  { nrows := 0, cols := [{ name := "id", data := .int .w64 [] }] }

/-- A zero-row table with object, `int64`, `int16`, float and datetime
columns. -/
def emptyMixedTable : Table :=
  { nrows := 0
    cols := [{ name := "s", data := .obj [] },
             { name := "a", data := .int .w64 [] },
             { name := "b", data := .int .w16 [] },
             { name := "x", data := .float .f64 [] },
             { name := "d", data := .datetime [] }] }

/-- One `int64` column holding a value outside every available signed
width (`2 ^ 70` exceeds the 64-bit range). -/
def overflowTable : Table :=
  { nrows := 1, cols := [{ name := "id", data := .int .w64 [2 ^ 70] }] }

/-- One `int16` column whose values would fit in 8 bits. -/
def int16Table : Table :=
  { nrows := 2, cols := [{ name := "n", data := .int .w16 [0, 5] }] }

/-- The spec's two integer downcast examples, as `int64` columns. -/
def intExamplesTable : Table :=
  { nrows := 4
    cols := [{ name := "a", data := .int .w64 [-120, 0, 5, 127] },
             { name := "b", data := .int .w64 [0, 40000] }] }

/-- A table whose only column label contains a digit between letters. -/
def digitLabelTable : Table :=
  { nrows := 1, cols := [{ name := "a2b", data := .obj [none] }] }

/-- The four label examples of the claim. -/
def labelExamplesTable : Table :=
  { nrows := 0
    cols := [{ name := "host_since", data := .obj [] },
             { name := "Listing ID", data := .obj [] },
             { name := "price.usd", data := .obj [] },
             { name := "", data := .obj [] }] }

/-- A one-column table labelled `host_since`. -/
def hostSinceTable : Table :=
  { nrows := 1
    cols := [{ name := "host_since", data := .obj [some "2019-01-01"] }] }

theorem titleAux_eq_byPredecessor (l : List Char) (p : Option Char) :
    titleAux (prevFlag p) l =
      (l.zip (p :: l.map some)).map (fun q =>
        if q.1.isAlpha then
          (if capitalizeHere q.2 then q.1.toUpper else q.1.toLower)
        else q.1) := by
  induction l generalizing p with
  | nil => rfl
  | cons c cs ih =>
    simp only [titleAux, List.zip_cons_cons, List.map_cons]
    by_cases hc : c.isAlpha
    · have hrec := ih (some c)
      simp only [prevFlag, hc] at hrec
      simp [hc, hrec, capitalizeHere, prevFlag]
      cases p with
      | none => simp [capitalizeHere, prevFlag]
      | some q =>
        by_cases hq : q.isAlpha <;> simp [capitalizeHere, prevFlag, hq]
    · have hrec := ih (some c)
      simp only [prevFlag, hc] at hrec
      simp [hc, hrec]

/-! ### Helper lemmas -/

theorem list_map_eq_self {α : Type} (f : α → α) (l : List α) :
    l.map f = l ↔ ∀ x ∈ l, f x = x := by
  induction l with
  | nil => simp
  | cons a l ih => simp [ih]

theorem nuniqueBelowHalf_iff (k R : Nat) :
    nuniqueBelowHalf k R ↔ 2 * k < R := by
  unfold nuniqueBelowHalf
  rw [lt_div_iff₀ (by norm_num : (0:ℚ) < 2), mul_comm]
  norm_cast

theorem wrap_aux (h n : Int) (hh : 0 < h) :
    (n + h) % (2 * h) - h = n ↔ -h ≤ n ∧ n < h := by
  have h2 : (0:Int) < 2 * h := by linarith
  constructor
  · intro he
    have hmod : (n + h) % (2 * h) = n + h := by linarith
    have h1 : 0 ≤ (n + h) % (2 * h) := Int.emod_nonneg _ (by linarith)
    have h2' : (n + h) % (2 * h) < 2 * h := Int.emod_lt_of_pos _ h2
    rw [hmod] at h1 h2'
    constructor <;> linarith
  · intro ⟨hl, hr⟩
    have : (n + h) % (2 * h) = n + h :=
      Int.emod_eq_of_lt (by linarith) (by linarith)
    rw [this]
    ring

theorem pow_bits_eq (w : IntWidth) :
    (2:Int) ^ w.bits = 2 * 2 ^ (w.bits - 1) := by
  cases w <;> norm_num [IntWidth.bits]

theorem intWrap_eq_self_iff (w : IntWidth) (n : Int) :
    intWrap w n = n ↔ inRange w n := by
  unfold intWrap inRange
  rw [pow_bits_eq w]
  exact wrap_aux _ n (by positivity)

theorem fitsExact_iff (w : IntWidth) (vs : List Int) :
    fitsExact w vs ↔ ∀ n ∈ vs, inRange w n := by
  unfold fitsExact
  rw [list_map_eq_self]
  exact forall₂_congr (fun n _ => intWrap_eq_self_iff w n)

theorem inRange_mono {w w' : IntWidth} (hw : w.bits ≤ w'.bits) {n : Int}
    (h : inRange w n) : inRange w' n := by
  obtain ⟨h1, h2⟩ := h
  have hp : (2:Int) ^ (w.bits - 1) ≤ 2 ^ (w'.bits - 1) :=
    pow_le_pow_right₀ (by norm_num) (Nat.sub_le_sub_right hw 1)
  exact ⟨by linarith, by linarith⟩

theorem tnLoop_snd (cands : List IntWidth) (st : IntWidth × List Int) :
    (tnLoop cands st).2 = st.2 := by
  induction cands generalizing st with
  | nil => rfl
  | cons tgt rest ih =>
    obtain ⟨w, vs⟩ := st
    simp only [tnLoop]
    split_ifs with h1 h2 h3 h4 h5 <;> simp_all [fitsExact, ih]

theorem tnLoop_step_skip (tgt : IntWidth) (rest : List IntWidth)
    (w : IntWidth) (vs : List Int) (h1 : tgt.bits ≤ w.bits)
    (h2 : ¬ w.bits ≤ tgt.bits) (hv : vs ≠ [])
    (hfit : ¬ fitsExact tgt vs) :
    tnLoop (tgt :: rest) (w, vs) = tnLoop rest (w, vs) := by
  simp [tnLoop, h1, h2, hv, hfit]

theorem tnLoop_step_commit (tgt : IntWidth) (rest : List IntWidth)
    (w : IntWidth) (vs : List Int) (h1 : tgt.bits ≤ w.bits)
    (h2 : ¬ w.bits ≤ tgt.bits) (hv : vs ≠ [])
    (hfit : fitsExact tgt vs) :
    tnLoop (tgt :: rest) (w, vs) = (tgt, vs) := by
  have hmap : vs.map (intWrap tgt) = vs := hfit
  simp [tnLoop, h1, h2, hv, hfit, hmap]

theorem tnLoop_step_self (rest : List IntWidth) (w : IntWidth)
    (vs : List Int) (hv : vs ≠ []) :
    tnLoop (w :: rest) (w, vs) = (w, vs) := by
  simp [tnLoop, hv]

theorem tn_empty (w : IntWidth) :
    to_numeric_downcast_integer w [] = (.w8, []) := by
  cases w <;> rfl

theorem tn_w64 (vs : List Int) (hv : vs ≠ []) :
    to_numeric_downcast_integer .w64 vs =
      (if fitsExact .w8 vs then .w8
       else if fitsExact .w16 vs then .w16
       else if fitsExact .w32 vs then .w32
       else .w64, vs) := by
  unfold to_numeric_downcast_integer
  by_cases h8 : fitsExact .w8 vs
  · rw [tnLoop_step_commit _ _ _ _ (by norm_num [IntWidth.bits])
      (by norm_num [IntWidth.bits]) hv h8]
    simp [h8]
  · rw [tnLoop_step_skip _ _ _ _ (by norm_num [IntWidth.bits])
      (by norm_num [IntWidth.bits]) hv h8]
    by_cases h16 : fitsExact .w16 vs
    · rw [tnLoop_step_commit _ _ _ _ (by norm_num [IntWidth.bits])
        (by norm_num [IntWidth.bits]) hv h16]
      simp [h8, h16]
    · rw [tnLoop_step_skip _ _ _ _ (by norm_num [IntWidth.bits])
        (by norm_num [IntWidth.bits]) hv h16]
      by_cases h32 : fitsExact .w32 vs
      · rw [tnLoop_step_commit _ _ _ _ (by norm_num [IntWidth.bits])
          (by norm_num [IntWidth.bits]) hv h32]
        simp [h8, h16, h32]
      · rw [tnLoop_step_skip _ _ _ _ (by norm_num [IntWidth.bits])
          (by norm_num [IntWidth.bits]) hv h32]
        rw [tnLoop_step_self _ _ _ hv]
        simp [h8, h16, h32]

theorem tn_w32 (vs : List Int) (hv : vs ≠ []) :
    to_numeric_downcast_integer .w32 vs =
      (if fitsExact .w8 vs then .w8
       else if fitsExact .w16 vs then .w16
       else .w32, vs) := by
  unfold to_numeric_downcast_integer
  by_cases h8 : fitsExact .w8 vs
  · rw [tnLoop_step_commit _ _ _ _ (by norm_num [IntWidth.bits])
      (by norm_num [IntWidth.bits]) hv h8]
    simp [h8]
  · rw [tnLoop_step_skip _ _ _ _ (by norm_num [IntWidth.bits])
      (by norm_num [IntWidth.bits]) hv h8]
    by_cases h16 : fitsExact .w16 vs
    · rw [tnLoop_step_commit _ _ _ _ (by norm_num [IntWidth.bits])
        (by norm_num [IntWidth.bits]) hv h16]
      simp [h8, h16]
    · rw [tnLoop_step_skip _ _ _ _ (by norm_num [IntWidth.bits])
        (by norm_num [IntWidth.bits]) hv h16]
      rw [tnLoop_step_self _ _ _ hv]
      simp [h8, h16]

theorem tn_snd (w : IntWidth) (vals : List Int) :
    (to_numeric_downcast_integer w vals).2 = vals :=
  tnLoop_snd _ _

theorem tn_w64_smallest (vs : List Int) (hv : vs ≠ []) :
    to_numeric_downcast_integer .w64 vs = (smallestFit vs, vs) := by
  rw [tn_w64 vs hv]
  unfold smallestFit
  simp only [fitsExact_iff]

theorem tn_w32_smallest (vs : List Int) (hv : vs ≠ [])
    (h32 : ∀ v ∈ vs, inRange .w32 v) :
    to_numeric_downcast_integer .w32 vs = (smallestFit vs, vs) := by
  rw [tn_w32 vs hv]
  unfold smallestFit
  simp only [fitsExact_iff]
  split_ifs with a b <;> rfl

theorem insertSorted_perm (s : String) (l : List String) :
    (insertSorted s l).Perm (s :: l) := by
  induction l with
  | nil => exact List.Perm.refl _
  | cons t ts ih =>
    unfold insertSorted
    split_ifs with h
    · exact List.Perm.refl _
    · exact ((ih.cons t).trans (List.Perm.swap s t ts))

theorem sortStrings_perm (l : List String) : (sortStrings l).Perm l := by
  induction l with
  | nil => exact List.Perm.refl _
  | cons s ss ih =>
    exact (insertSorted_perm s (sortStrings ss)).trans (ih.cons s)

theorem mem_sortStrings {a : String} {l : List String} :
    a ∈ sortStrings l ↔ a ∈ l :=
  (sortStrings_perm l).mem_iff

theorem get?_idxOfStr (s : String) (l : List String) (h : s ∈ l) :
    l.get? (idxOfStr s l) = some s := by
  induction l with
  | nil => cases h
  | cons t ts ih =>
    unfold idxOfStr
    split_ifs with ht
    · simp [ht]
    · have hs : s ∈ ts := by
        rcases List.mem_cons.mp h with h' | h'
        · exact absurd h'.symm ht
        · exact h'
      rw [List.get?_cons_succ]
      exact ih hs

theorem astype_category_logicalValues (vals : List ObjVal) :
    (astype_category vals).logicalValues = vals.map .text := by
  simp only [astype_category, ColData.logicalValues, List.map_map]
  apply List.map_congr_left
  intro v hv
  simp only [Function.comp_apply]
  cases v with
  | none => simp [decodeCat]
  | some s =>
    have hmem : s ∈ sortStrings (vals.filterMap id).dedup := by
      rw [mem_sortStrings, List.mem_dedup, List.mem_filterMap]
      exact ⟨some s, hv, rfl⟩
    unfold decodeCat
    rw [if_neg (not_lt.mpr (Int.natCast_nonneg _)), Int.toNat_natCast]
    rw [get?_idxOfStr s _ hmem]

theorem objectStep_name (R : Nat) (c : Column) :
    (objectStep R c).name = c.name := by
  obtain ⟨nm, d⟩ := c
  cases d with
  | obj vals =>
    by_cases h : nuniqueBelowHalf vals.dedup.length R <;> simp [objectStep, h]
  | cat a b => rfl
  | int w vals => rfl
  | float w vals => rfl
  | datetime vals => rfl

theorem intStep_name (c : Column) : (intStep c).name = c.name := by
  obtain ⟨nm, d⟩ := c
  cases d with
  | int w vals => cases w <;> rfl
  | obj vals => rfl
  | cat a b => rfl
  | float w vals => rfl
  | datetime vals => rfl

theorem objectStep_logicalValues (R : Nat) (c : Column) :
    (objectStep R c).data.logicalValues = c.data.logicalValues := by
  obtain ⟨nm, d⟩ := c
  cases d with
  | obj vals =>
    by_cases h : nuniqueBelowHalf vals.dedup.length R
    · have h1 : objectStep R ⟨nm, .obj vals⟩ = ⟨nm, astype_category vals⟩ := by
        simp [objectStep, h]
      rw [h1]
      exact astype_category_logicalValues vals
    · simp [objectStep, h]
  | cat a b => rfl
  | int w vals => rfl
  | float w vals => rfl
  | datetime vals => rfl

theorem intStep_logicalValues (c : Column) :
    (intStep c).data.logicalValues = c.data.logicalValues := by
  obtain ⟨nm, d⟩ := c
  cases d with
  | int w vals =>
    cases w <;>
      simp [intStep, ColData.selectedByIntFilter, ColData.isIntegerDtype,
        ColData.logicalValues, tn_snd]
  | obj vals => rfl
  | cat a b => rfl
  | float w vals => rfl
  | datetime vals => rfl

theorem set_data_types_get? (t : Table) (i : Nat) :
    (set_data_types t).cols.get? i =
      (t.cols.get? i).map (fun c => intStep (objectStep t.nrows c)) := by
  simp only [set_data_types, List.get?_eq_getElem?, List.getElem?_map,
    Option.map_map]
  rfl

theorem intStep_idem (c : Column) : intStep (intStep c) = intStep c := by
  obtain ⟨nm, d⟩ := c
  cases d with
  | obj vals => rfl
  | cat a b => rfl
  | float w vals => rfl
  | datetime vals => rfl
  | int w vals =>
    cases w with
    | w8 => rfl
    | w16 => rfl
    | w32 =>
      have hstep : intStep ⟨nm, .int .w32 vals⟩ =
          ⟨nm, .int (to_numeric_downcast_integer .w32 vals).1
            (to_numeric_downcast_integer .w32 vals).2⟩ := rfl
      rw [hstep, tn_snd]
      by_cases hv : vals = []
      · subst hv
        rw [tn_empty]
        rfl
      · rw [tn_w32 vals hv]
        by_cases h8 : fitsExact .w8 vals
        · simp only [if_pos h8]
          rfl
        · by_cases h16 : fitsExact .w16 vals
          · simp only [if_neg h8, if_pos h16]
            rfl
          · simp only [if_neg h8, if_neg h16]
            have hstep32 : intStep ⟨nm, .int .w32 vals⟩ =
                ⟨nm, .int (to_numeric_downcast_integer .w32 vals).1
                  (to_numeric_downcast_integer .w32 vals).2⟩ := rfl
            rw [hstep32, tn_snd, tn_w32 vals hv]
            simp only [if_neg h8, if_neg h16]
    | w64 =>
      have hstep : intStep ⟨nm, .int .w64 vals⟩ =
          ⟨nm, .int (to_numeric_downcast_integer .w64 vals).1
            (to_numeric_downcast_integer .w64 vals).2⟩ := rfl
      rw [hstep, tn_snd]
      by_cases hv : vals = []
      · subst hv
        rw [tn_empty]
        rfl
      · rw [tn_w64 vals hv]
        by_cases h8 : fitsExact .w8 vals
        · simp only [if_pos h8]
          rfl
        · by_cases h16 : fitsExact .w16 vals
          · simp only [if_neg h8, if_pos h16]
            rfl
          · by_cases h32 : fitsExact .w32 vals
            · simp only [if_neg h8, if_neg h16, if_pos h32]
              have hstep32 : intStep ⟨nm, .int .w32 vals⟩ =
                  ⟨nm, .int (to_numeric_downcast_integer .w32 vals).1
                    (to_numeric_downcast_integer .w32 vals).2⟩ := rfl
              rw [hstep32, tn_snd, tn_w32 vals hv]
              simp only [if_neg h8, if_neg h16]
            · simp only [if_neg h8, if_neg h16, if_neg h32]
              have hstep64 : intStep ⟨nm, .int .w64 vals⟩ =
                  ⟨nm, .int (to_numeric_downcast_integer .w64 vals).1
                    (to_numeric_downcast_integer .w64 vals).2⟩ := rfl
              rw [hstep64, tn_snd, tn_w64 vals hv]
              simp only [if_neg h8, if_neg h16, if_neg h32]

theorem objectStep_intStep_objectStep (R : Nat) (c : Column) :
    objectStep R (intStep (objectStep R c)) = intStep (objectStep R c) := by
  obtain ⟨nm, d⟩ := c
  cases d with
  | obj vals =>
    by_cases h : nuniqueBelowHalf vals.dedup.length R
    · have h1 : objectStep R ⟨nm, .obj vals⟩ = ⟨nm, astype_category vals⟩ := by
        simp [objectStep, h]
      rw [h1]
      rfl
    · have h1 : objectStep R ⟨nm, .obj vals⟩ = ⟨nm, .obj vals⟩ := by
        simp [objectStep, h]
      rw [h1]
      have h2 : intStep ⟨nm, .obj vals⟩ = ⟨nm, .obj vals⟩ := rfl
      rw [h2]
      exact h1
  | cat a b => rfl
  | datetime vals => rfl
  | float w vals => rfl
  | int w vals => cases w <;> rfl

theorem renameLabel_eq_amendedLabel (s : String) :
    renameLabel s = amendedLabel s := by
  unfold renameLabel amendedLabel titleByPredecessor
  have h := titleAux_eq_byPredecessor (s.data.map Char.toLower) none
  simp only [prevFlag] at h
  rw [h]

/-! ### Claim theorems -/

/-- C1 (code bug): `set_data_types` never converts a float column. The
source collects `float_columns` but its conversion loop runs over
`int_columns` only (the `is_float_dtype` arm there is unreachable), so a
`float64` column whose values all fit in 32 (even 16) bits keeps its 64-bit
storage kind — contradicting the function's own docstring, which says float
columns are downcast to `float16`/`float32`. -/
theorem C1_float_columns_never_converted :
    set_data_types floatTable = floatTable ∧
    (set_data_types floatTable).cols.map (fun c => c.data) =
      [ColData.float .f64 [1, 2, 4]] :=
  ⟨rfl, rfl⟩

/-- C8: `set_data_types` and `rename_columns` return new tables with the
input's row count, column count, and column order unchanged;
`set_data_types` keeps every label, `rename_columns` keeps every column's
data. In the embedding both are pure functions of the input table, matching
the source's `df = df.copy()`. -/
theorem C8_no_mutation_shape_invariance (t : Table) :
    ((set_data_types t).nrows = t.nrows ∧
      (set_data_types t).cols.length = t.cols.length ∧
      (set_data_types t).cols.map Column.name = t.cols.map Column.name) ∧
    ((rename_columns t).nrows = t.nrows ∧
      (rename_columns t).cols.length = t.cols.length ∧
      (rename_columns t).cols.map Column.data = t.cols.map Column.data) := by
  refine ⟨⟨rfl, by simp [set_data_types], ?_⟩,
    rfl, by simp [rename_columns], by simp [rename_columns]⟩
  simp only [set_data_types, List.map_map]
  apply List.map_congr_left
  intro c _
  simp only [Function.comp_apply]
  rw [intStep_name, objectStep_name]

/-- C10: the label transform of `rename_columns` is not idempotent:
`"host_since"` becomes `"HostSince"` after one application but
`"Hostsince"` after a second, because the second lowercase pass erases the
interior capital and no separator remains to restore it. -/
theorem C10_rename_not_idempotent :
    (rename_columns hostSinceTable).cols.map Column.name = ["HostSince"] ∧
    (rename_columns (rename_columns hostSinceTable)).cols.map Column.name =
      ["Hostsince"] ∧
    (rename_columns (rename_columns hostSinceTable)).cols.map Column.name ≠
      (rename_columns hostSinceTable).cols.map Column.name := by
  decide

/-- C6 counterexample: the claim describes title-casing with word
boundaries at whitespace/punctuation only, but Python `str.title` also
breaks words at digits: on the label `"a2b"` the source produces `"A2B"`
while the claim's pipeline produces `"A2b"`. -/
theorem C6_label_transform_counterexample :
    (rename_columns digitLabelTable).cols.map Column.name = ["A2B"] ∧
    specNormalizeLabel "a2b" = "A2b" ∧
    (rename_columns digitLabelTable).cols.map Column.name ≠
      [specNormalizeLabel "a2b"] := by
  decide

/-- C6 amended: `rename_columns` maps every label by lowercasing, then
uppercasing each letter that begins the string or follows a non-letter
character (lowercasing all other letters — Python `str.title` word
boundaries, digits included), then removing all underscores, spaces and
periods; in particular `"host_since"` maps to `"HostSince"`,
`"Listing ID"` to `"ListingId"`, `"price.usd"` to `"PriceUsd"`, and `""`
to `""`. -/
theorem C6_label_transform_amended :
    (∀ t : Table, (rename_columns t).cols.map Column.name =
      t.cols.map (fun c => amendedLabel c.name)) ∧
    (rename_columns labelExamplesTable).cols.map Column.name =
      ["HostSince", "ListingId", "PriceUsd", ""] := by
  constructor
  · intro t
    simp only [rename_columns, List.map_map]
    apply List.map_congr_left
    intro c _
    simp only [Function.comp_apply]
    exact renameLabel_eq_amendedLabel c.name
  · decide

/-- C2: for every table with row count `R` and every object column with
exactly `k` distinct values — the missing marker counted as one distinct
value (`nunique(dropna=False)`) — `set_data_types` converts the column to a
categorical representation if and only if `k < R / 2`, the comparison being
the exact real-valued one (equivalently `2 * k < R`), not integer floor. -/
theorem C2_category_threshold (t : Table) (i : Nat) (nm : String)
    (vals : List ObjVal)
    (hcol : t.cols.get? i = some ⟨nm, .obj vals⟩) :
    ((∃ cats codes, (set_data_types t).cols.get? i =
        some ⟨nm, .cat cats codes⟩) ↔
      nuniqueBelowHalf vals.dedup.length t.nrows) ∧
    (nuniqueBelowHalf vals.dedup.length t.nrows ↔
      2 * vals.dedup.length < t.nrows) := by
  refine ⟨?_, nuniqueBelowHalf_iff _ _⟩
  rw [set_data_types_get?, hcol]
  simp only [Option.map_some']
  by_cases h : nuniqueBelowHalf vals.dedup.length t.nrows
  · have h1 : objectStep t.nrows ⟨nm, .obj vals⟩ = ⟨nm, astype_category vals⟩ := by
      simp [objectStep, h]
    rw [h1]
    exact iff_of_true ⟨_, _, rfl⟩ h
  · have h1 : objectStep t.nrows ⟨nm, .obj vals⟩ = ⟨nm, .obj vals⟩ := by
      simp [objectStep, h]
    rw [h1]
    refine iff_of_false ?_ h
    rintro ⟨cats, codes, heq⟩
    simp [intStep] at heq

theorem C2_category_threshold_witness :
    (objTable.cols.get? 0 =
      some ⟨"city", .obj [some "a", some "a", none, some "a", none]⟩) ∧
    (((∃ cats codes, (set_data_types objTable).cols.get? 0 =
        some ⟨"city", .cat cats codes⟩) ↔
      nuniqueBelowHalf
        [some "a", some "a", none, some "a", none].dedup.length
        objTable.nrows) ∧
     (nuniqueBelowHalf
        [some "a", some "a", none, some "a", none].dedup.length
        objTable.nrows ↔
      2 * [some "a", some "a", none, some "a", none].dedup.length <
        objTable.nrows)) :=
  ⟨rfl, C2_category_threshold objTable 0 "city" _ rfl⟩

/-- C7: `set_data_types` is idempotent — applying it twice yields a table
equal in every column's storage kind and every value to applying it once. -/
theorem C7_optimize_idempotent (t : Table) :
    set_data_types (set_data_types t) = set_data_types t := by
  simp only [set_data_types, List.map_map]
  congr 1
  apply List.map_congr_left
  intro c _
  simp only [Function.comp_apply]
  rw [objectStep_intStep_objectStep, intStep_idem]

/-- C9: `set_data_types` preserves every logical value at every position:
each column of the result, decoded back to logical values (categorical
through its dictionary, numerics directly), equals the corresponding input
column's logical values, in row order. -/
theorem C9_values_preserved (t : Table) :
    (set_data_types t).cols.map (fun c => c.data.logicalValues) =
      t.cols.map (fun c => c.data.logicalValues) := by
  simp only [set_data_types, List.map_map]
  apply List.map_congr_left
  intro c _
  simp only [Function.comp_apply]
  rw [intStep_logicalValues, objectStep_logicalValues]

/-- C3 counterexample: on a zero-row table with an `int64` column,
`set_data_types` does not keep the original storage kind — pandas'
downcast astypes an empty array straight to `int8`, so the column comes
back 8-bit. -/
theorem C3_zero_row_counterexample :
    set_data_types emptyIntTable =
      { nrows := 0, cols := [{ name := "id", data := .int .w8 [] }] } ∧
    set_data_types emptyIntTable ≠ emptyIntTable := by
  decide

/-- C3 amended: a zero-row table maps to a zero-row table in which object,
categorical, float, datetime and 8/16-bit integer columns keep their
storage kinds, while every integer column selected by the `'int'` filter
(32- or 64-bit) is downcast to the 8-bit kind (pandas astypes an empty
array to the first candidate width). -/
theorem C3_zero_row_amended (t : Table) (h0 : t.nrows = 0)
    (hc : ∀ c ∈ t.cols, c.data.nvals = 0) :
    (set_data_types t).nrows = 0 ∧
    (set_data_types t).cols = t.cols.map (fun c =>
      if c.data.selectedByIntFilter then
        { name := c.name, data := ColData.int .w8 [] }
      else c) := by
  refine ⟨h0, ?_⟩
  simp only [set_data_types, List.map_map]
  apply List.map_congr_left
  intro c hcmem
  have hn := hc c hcmem
  obtain ⟨nm, d⟩ := c
  simp only [Function.comp_apply]
  cases d with
  | obj vals =>
    have hvals : vals = [] := List.eq_nil_of_length_eq_zero hn
    subst hvals
    have hcond : ¬ nuniqueBelowHalf 0 t.nrows := by
      rw [nuniqueBelowHalf_iff, h0]
      simp
    have h1 : objectStep t.nrows ⟨nm, .obj []⟩ = ⟨nm, .obj []⟩ := by
      simp [objectStep, hcond]
    rw [h1]
    rfl
  | cat a b => rfl
  | datetime vals => rfl
  | float w vals => rfl
  | int w vals =>
    have hvals : vals = [] := List.eq_nil_of_length_eq_zero hn
    subst hvals
    cases w <;> rfl

theorem C3_zero_row_amended_witness :
    (emptyMixedTable.nrows = 0 ∧ ∀ c ∈ emptyMixedTable.cols, c.data.nvals = 0) ∧
    ((set_data_types emptyMixedTable).nrows = 0 ∧
      (set_data_types emptyMixedTable).cols = emptyMixedTable.cols.map (fun c =>
        if c.data.selectedByIntFilter then
          { name := c.name, data := ColData.int .w8 [] }
        else c)) :=
  ⟨⟨rfl, by decide⟩, C3_zero_row_amended emptyMixedTable rfl (by decide)⟩

/-- C4 counterexample: the claim expects a `SchemaError` on a column whose
values exceed every available width, but the source defines no such error
and has no failure path at all: on a table whose `int64` column holds
`2 ^ 70`, `set_data_types` returns the table whole and unchanged instead of
failing. -/
theorem C4_schema_error_counterexample :
    (∃ v ∈ [(2 ^ 70 : Int)], ¬ inRange .w64 v) ∧
    set_data_types overflowTable = overflowTable := by
  decide

/-- C4 amended: `set_data_types` never fails — it is a total function with
no error path (no `SchemaError` exists in the source): an integer column
holding a value outside the representable range of every available width is
returned whole and unchanged, kind and values intact, rather than raising. -/
theorem C4_no_failure_amended (t : Table) (i : Nat) (nm : String)
    (w : IntWidth) (vals : List Int)
    (hcol : t.cols.get? i = some ⟨nm, .int w vals⟩)
    (hbig : ∃ v ∈ vals, ¬ inRange .w64 v) :
    (set_data_types t).cols.get? i = some ⟨nm, .int w vals⟩ := by
  rw [set_data_types_get?, hcol]
  simp only [Option.map_some']
  rw [show objectStep t.nrows ⟨nm, .int w vals⟩ = ⟨nm, .int w vals⟩ from rfl]
  obtain ⟨v, hvmem, hv64⟩ := hbig
  have hvne : vals ≠ [] := by
    rintro rfl
    simp at hvmem
  have h8 : ¬ fitsExact .w8 vals := by
    rw [fitsExact_iff]
    intro hall
    exact hv64 (inRange_mono (by norm_num [IntWidth.bits]) (hall v hvmem))
  have h16 : ¬ fitsExact .w16 vals := by
    rw [fitsExact_iff]
    intro hall
    exact hv64 (inRange_mono (by norm_num [IntWidth.bits]) (hall v hvmem))
  have h32 : ¬ fitsExact .w32 vals := by
    rw [fitsExact_iff]
    intro hall
    exact hv64 (inRange_mono (by norm_num [IntWidth.bits]) (hall v hvmem))
  cases w with
  | w8 => rfl
  | w16 => rfl
  | w32 =>
    rw [show intStep ⟨nm, .int .w32 vals⟩ =
        ⟨nm, .int (to_numeric_downcast_integer .w32 vals).1
          (to_numeric_downcast_integer .w32 vals).2⟩ from rfl]
    rw [tn_w32 vals hvne]
    simp only [if_neg h8, if_neg h16]
  | w64 =>
    rw [show intStep ⟨nm, .int .w64 vals⟩ =
        ⟨nm, .int (to_numeric_downcast_integer .w64 vals).1
          (to_numeric_downcast_integer .w64 vals).2⟩ from rfl]
    rw [tn_w64 vals hvne]
    simp only [if_neg h8, if_neg h16, if_neg h32]

theorem C4_no_failure_amended_witness :
    (overflowTable.cols.get? 0 = some ⟨"id", .int .w64 [2 ^ 70]⟩) ∧
    (∃ v ∈ [(2 ^ 70 : Int)], ¬ inRange .w64 v) ∧
    (set_data_types overflowTable).cols.get? 0 =
      some ⟨"id", .int .w64 [2 ^ 70]⟩ :=
  ⟨rfl, by decide,
    C4_no_failure_amended overflowTable 0 "id" .w64 [2 ^ 70] rfl (by decide)⟩

/-- C5 counterexample: the claim quantifies over every non-empty
integer-typed column, but the `'int'` dtype filter selects only 32- and
64-bit integer columns, so an `int16` column whose values `[0, 5]` fit the
8-bit kind is left at 16 bits by `set_data_types` while the smallest
covering kind is 8-bit. -/
theorem C5_smallest_width_counterexample :
    set_data_types int16Table = int16Table ∧
    smallestFit [0, 5] = .w8 ∧
    ColData.int .w16 [0, 5] ≠ ColData.int (smallestFit [0, 5]) [0, 5] := by
  decide

/-- C5 amended: every non-empty integer column selected by the `'int'`
dtype filter (32- or 64-bit kind) whose values lie within its declared
width is downcast to the smallest signed kind among 8, 16, 32, 64 bits
covering all its values, values unchanged; 8- and 16-bit integer columns
are not revisited. In particular an `int64` column `[-120, 0, 5, 127]`
becomes 8-bit and an `int64` column `[0, 40000]` becomes 32-bit. -/
theorem C5_smallest_width_amended (t : Table) (i : Nat) (nm : String)
    (w : IntWidth) (vals : List Int)
    (hcol : t.cols.get? i = some ⟨nm, .int w vals⟩)
    (hsel : ColData.selectedByIntFilter (.int w vals) = true)
    (hne : vals ≠ [])
    (hrange : ∀ v ∈ vals, inRange w v) :
    (set_data_types t).cols.get? i =
      some ⟨nm, .int (smallestFit vals) vals⟩ := by
  rw [set_data_types_get?, hcol]
  simp only [Option.map_some']
  rw [show objectStep t.nrows ⟨nm, .int w vals⟩ = ⟨nm, .int w vals⟩ from rfl]
  cases w with
  | w8 => exact Bool.noConfusion hsel
  | w16 => exact Bool.noConfusion hsel
  | w32 =>
    rw [show intStep ⟨nm, .int .w32 vals⟩ =
        ⟨nm, .int (to_numeric_downcast_integer .w32 vals).1
          (to_numeric_downcast_integer .w32 vals).2⟩ from rfl]
    rw [tn_w32_smallest vals hne hrange]
  | w64 =>
    rw [show intStep ⟨nm, .int .w64 vals⟩ =
        ⟨nm, .int (to_numeric_downcast_integer .w64 vals).1
          (to_numeric_downcast_integer .w64 vals).2⟩ from rfl]
    rw [tn_w64_smallest vals hne]

theorem C5_smallest_width_amended_witness :
    ((∀ v ∈ ([-120, 0, 5, 127] : List Int), inRange .w64 v) ∧
      (set_data_types intExamplesTable).cols.get? 0 =
        some ⟨"a", .int (smallestFit [-120, 0, 5, 127]) [-120, 0, 5, 127]⟩ ∧
      smallestFit [-120, 0, 5, 127] = .w8) ∧
    ((∀ v ∈ ([0, 40000] : List Int), inRange .w64 v) ∧
      (set_data_types intExamplesTable).cols.get? 1 =
        some ⟨"b", .int (smallestFit [0, 40000]) [0, 40000]⟩ ∧
      smallestFit [0, 40000] = .w32) :=
  ⟨⟨by decide,
    C5_smallest_width_amended intExamplesTable 0 "a" .w64 _ rfl rfl
      (by decide) (by decide),
    by decide⟩,
   ⟨by decide,
    C5_smallest_width_amended intExamplesTable 1 "b" .w64 _ rfl rfl
      (by decide) (by decide),
    by decide⟩⟩
